import Mathlib

/-!
Verification of the streaming reconstruction and fallback logic of
`convert_pdf.py` (Mathpix batch PDF converter).

The definitions below are a shallow embedding of the Python source:

* `stepEvent`, `runStream`, `handleStreaming` embed
  `PDFConverter._handle_streaming` — the per-event processing of decoded
  stream lines (total-page update, page storage, re-materialization and
  truncate-rewrite of the output file, completion check), together with
  the exception handling around the event loop.
* `convert_with_streaming` embeds the control flow of
  `PDFConverter.convert_with_streaming`: a raised streaming exception with a
  bound `pdf_id` diverts to `fallback_download`, a normal return does not.
* `pollLoop` / `fallback_download` embed `PDFConverter.fallback_download`:
  poll `get_pdf_status` every 5 time units up to a 300 time-unit ceiling,
  then download the final document.
* `check_final_status` embeds `PDFConverter.check_final_status`.
* `runJob` / `process_all` / `summarize` embed `BatchProcessor.process_all`
  and `BatchProcessor._print_summary`.

The page mapping (a Python dict from page index to text) is embedded as an
association list with dict-style insert-or-replace semantics; file writes are
embedded as the resulting file content (the code truncates and rewrites the
whole file on every event).
-/

/-- A decoded stream line (the JSON payload of one event).  The Python code
reads the fields with defaults: `data.get("page_idx", 0)`,
`data.get("text", "")`, `data.get("pdf_selected_len", 0)`; absent fields are
`none` here. -/
structure Payload where
  page_idx : Option Nat
  text : Option String
  pdf_selected_len : Option Nat
deriving DecidableEq

/-- `k in content` for the page dict: is `k` a key of the mapping. -/
def hasKey (m : List (Nat × String)) (k : Nat) : Bool :=
  m.any (fun q => decide (q.1 = k))

/-- `content[k] = v` for the page dict: replace the value at an existing key,
otherwise add the pair. -/
def insertPage (m : List (Nat × String)) (k : Nat) (v : String) : List (Nat × String) :=
  if hasKey m k then m.map (fun q => if q.1 = k then (k, v) else q)
  else m ++ [(k, v)]

/-- Dict lookup returning the value stored at `k`, if any. -/
def lookupPage : List (Nat × String) → Nat → Option String
  | [], _ => none
  | q :: m, k => if q.1 = k then some q.2 else lookupPage m k

/-- `content.get(k, "")`: lookup with the empty string as default. -/
def lookupD (m : List (Nat × String)) (k : Nat) : String :=
  (lookupPage m k).getD ""

/-- `max(content.keys())`, with 0 for an empty mapping (the code only calls
it on a nonempty mapping). -/
def maxKey (m : List (Nat × String)) : Nat :=
  (m.map Prod.fst).foldr max 0

/-- `"".join(parts)`. -/
def concatTexts : List String → String
  | [] => ""
  | t :: ts => t ++ concatTexts ts

/-- The per-event materialization
`"".join(content.get(i, "") for i in range(1, max(content.keys()) + 1))`:
every index from 1 to the maximum stored key, gaps as empty strings. -/
def materializeAll (m : List (Nat × String)) : String :=
  concatTexts ((List.range' 1 (maxKey m)).map (fun i => lookupD m i))

/-- The connection-reset salvage materialization
`"".join(content.get(i, "") for i in range(1, max(content.keys()) + 1) if i in content)`:
only the indices actually present, in increasing order. -/
def materializePresent (m : List (Nat × String)) : String :=
  concatTexts (((List.range' 1 (maxKey m)).filter (fun i => hasKey m i)).map
    (fun i => lookupD m i))

/-- The mapping with the entries at key 0 removed (used only to state that
materialization is independent of the text stored at index 0). -/
def dropKey0 (m : List (Nat × String)) : List (Nat × String) :=
  m.filter (fun q => decide (q.1 ≠ 0))

/-- The mutable state of the streaming loop in `_handle_streaming`:
the page dict, `expected_total_pages`, and the current content of the output
file (rewritten in full after every stored event). -/
structure StreamState where
  content : List (Nat × String)
  expected_total_pages : Nat
  fileContent : String
deriving DecidableEq

/-- State at loop entry: empty dict, `expected_total_pages = 0`, output file
just opened with mode "w" (truncated). -/
def initState : StreamState := ⟨[], 0, ""⟩

/-- Processing of one decoded event: update `expected_total_pages` when a
differing nonzero total is reported, store the text at its page index
(insert-or-replace), and truncate-rewrite the output file with the
re-materialized document. -/
def stepEvent (s : StreamState) (p : Payload) : StreamState :=
  let page_idx := p.page_idx.getD 0
  let text := p.text.getD ""
  let total_pages := p.pdf_selected_len.getD 0
  let expected :=
    if 0 < total_pages ∧ s.expected_total_pages ≠ total_pages then total_pages
    else s.expected_total_pages
  let content := insertPage s.content page_idx text
  ⟨content, expected, materializeAll content⟩

/-- The completion test run after every event:
`expected > 0 and len(content) >= expected and all(i in content for i in range(1, expected + 1))`. -/
def isComplete (expected : Nat) (m : List (Nat × String)) : Bool :=
  decide (0 < expected) && decide (expected ≤ m.length) &&
    (List.range' 1 expected).all (fun i => hasKey m i)

/-- The event loop: process each decoded line in order, breaking out as soon
as the completion test succeeds.  Returns the final state and whether the
loop exited through the completion break. -/
def runStream : StreamState → List Payload → StreamState × Bool
  | s, [] => (s, false)
  | s, p :: ps =>
    let s1 := stepEvent s p
    if isComplete s1.expected_total_pages s1.content then (s1, true)
    else runStream s1 ps

/-- How the event stream terminates after delivering its decoded events:
closed by the producer, or interrupted by one of the typed transport errors
(`httpx.HTTPStatusError`, `httpx.ReadTimeout`, `httpx.RemoteProtocolError`). -/
inductive StreamEnd where
  | closed
  | httpStatusError
  | readTimeout
  | connectionReset
deriving DecidableEq

/-- `_handle_streaming` as a whole: run the event loop, then apply the
exception-handling policy.  A completion break returns before the
interruption can be observed.  On a clean close the partial tuple
`(state, len(content), expected_total_pages)` is returned (the trailing
"only received N/M pages" check merely logs).  An HTTP status error is
always re-raised; a read timeout is re-raised only when no page was stored;
a connection reset with stored pages forces one salvage rewrite of the file
using the present-indices materialization. -/
def handleStreaming (events : List Payload) (ending : StreamEnd) :
    Except Unit (StreamState × Nat × Nat) :=
  let r := runStream initState events
  let s := r.1
  if r.2 then .ok (s, s.content.length, s.expected_total_pages)
  else
    match ending with
    | .closed => .ok (s, s.content.length, s.expected_total_pages)
    | .httpStatusError => .error ()
    | .readTimeout =>
        if 0 < s.content.length then .ok (s, s.content.length, s.expected_total_pages)
        else .error ()
    | .connectionReset =>
        if 0 < s.content.length then
          .ok (⟨s.content, s.expected_total_pages, materializePresent s.content⟩,
            s.content.length, s.expected_total_pages)
        else .error ()

/-- Outcome of `convert_with_streaming` for one document. -/
inductive ConvertOutcome where
  | streamed (result : StreamState × Nat × Nat)
  | fellBack
  | raised
deriving DecidableEq

/-- The control flow of `convert_with_streaming`: if submission fails no
`pdf_id` is bound and the exception is re-raised; otherwise a normal return
of `_handle_streaming` is passed through unchanged, and only a raised
streaming exception diverts to `fallback_download`. -/
def convert_with_streaming (submitted : Option String) (events : List Payload)
    (ending : StreamEnd) : ConvertOutcome :=
  match submitted with
  | none => .raised
  | some _ =>
    match handleStreaming events ending with
    | .ok r => .streamed r
    | .error _ => .fellBack

/-- One `get_pdf_status` response: `status_data.get("status")`,
`status_data.get("num_pages", 0)`, `status_data.get("num_pages_completed", 0)`. -/
structure StatusResp where
  status : Option String
  num_pages : Nat
  num_pages_completed : Nat
deriving DecidableEq

/-- How the polling loop of `fallback_download` is left, carrying the page
counters of the poll in scope at the break. -/
inductive PollExit where
  | completed (num_pages num_pages_completed : Nat)
  | ceiling (num_pages num_pages_completed : Nat)
deriving DecidableEq

/-- `max_wait_time = 300` (the wall-clock ceiling of the polling loop). -/
def max_wait_time : Nat := 300

/-- `asyncio.sleep(5)` between polls. -/
def poll_interval : Nat := 5

/-- The polling loop of `fallback_download`.  Iteration `j` (0-based, after
`j` sleeps, so at elapsed time `poll_interval * j`) issues poll `j + 1`
(`polls 0` is the initial status call before the loop).  A raised
`StatusError` (`.error`) propagates; status "completed" breaks; status
"error" raises; otherwise the loop breaks once the elapsed time exceeds the
ceiling, else sleeps and continues.  `fuel` bounds the recursion and is
chosen large enough that it never runs out before the ceiling. -/
def pollLoop (polls : Nat → Except Unit StatusResp) :
    Nat → Nat → Except Unit PollExit
  | 0, _ => .error ()
  | fuel + 1, j =>
    match polls (j + 1) with
    | .error _ => .error ()
    | .ok sd =>
      if sd.status = some "completed" then
        .ok (.completed sd.num_pages sd.num_pages_completed)
      else if sd.status = some "error" then .error ()
      else if max_wait_time < poll_interval * j then
        .ok (.ceiling sd.num_pages sd.num_pages_completed)
      else pollLoop polls fuel (j + 1)

/-- `fallback_download`: one initial status call, the polling loop, then the
final download.  Any exception along the way reaches the outer handler and
becomes the fatal "Failed to convert using both methods" (`.error ()`).  An
empty downloaded document means not-ready and yields `(0, 0)` with no file
write; otherwise the document is written and
`(num_pages_completed, num_pages)` of the last poll is reported.  The third
component is the file content written, if any. -/
def fallback_download (polls : Nat → Except Unit StatusResp)
    (download : Except Unit String) : Except Unit (Nat × Nat × Option String) :=
  match polls 0 with
  | .error _ => .error ()
  | .ok _ =>
    match pollLoop polls (max_wait_time / poll_interval + 2) 0 with
    | .error _ => .error ()
    | .ok ex =>
      match download with
      | .error _ => .error ()
      | .ok mmd =>
        if mmd = "" then .ok (0, 0, none)
        else
          match ex with
          | .completed np npc => .ok (npc, np, some mmd)
          | .ceiling np npc => .ok (npc, np, some mmd)

/-- `check_final_status`, threaded with the content of the already-written
output file (which the source function never touches): with the skip flag
the status is not queried and `True` is returned; otherwise status
"completed", "split" or "processing" yields `True`, any other status — or a
raised exception (`.error`) — yields `False`. -/
def check_final_status (skip_status_check : Bool)
    (statusResult : Except Unit (Option String)) (outFile : String) :
    Bool × String :=
  if skip_status_check then (true, outFile)
  else
    match statusResult with
    | .error _ => (false, outFile)
    | .ok st =>
      if st = some "completed" then (true, outFile)
      else if st = some "split" ∨ st = some "processing" then (true, outFile)
      else (false, outFile)

/-- One job of a batch: its source path, its output path, and the outcome of
driving it through conversion (either a raised exception's message, or the
`(pdf_id, pages_received, total_pages)` tuple together with the final status
check's verdict). -/
structure JobSpec where
  pdf : String
  out_file : String
  outcome : Except String (String × Nat × Nat × Bool)

/-- The result record `process_all` appends for one job.  A failed job's
record carries `success = False` and the error string; the Python dict lacks
the `pdf_id`/`pages_received`/`total_pages` keys there, which every later
read accesses through `.get(_, 0)`, embedded as `none` / 0. -/
structure JobRecord where
  pdf : String
  out_file : String
  pdf_id : Option String
  pages_received : Nat
  total_pages : Nat
  success : Bool
  error : Option String
deriving DecidableEq

/-- The per-job body of the `for` loop of `process_all`: a normal conversion
result is recorded as-is, a raised exception is caught and recorded with its
message, and the loop continues either way. -/
def runJob (j : JobSpec) : JobRecord :=
  match j.outcome with
  | .ok (pid, recv, tot, succ) => ⟨j.pdf, j.out_file, some pid, recv, tot, succ, none⟩
  | .error e => ⟨j.pdf, j.out_file, none, 0, 0, false, some e⟩

/-- `process_all`: every job of the batch is processed and recorded
independently, in order. -/
def process_all (jobs : List JobSpec) : List JobRecord :=
  jobs.map runJob

/-- The aggregate counters of `_print_summary`. -/
structure BatchSummary where
  success_count : Nat
  total_pages_processed : Nat
  total_pages_expected : Nat
deriving DecidableEq

/-- `_print_summary`'s arithmetic: count of successful records, sum of
`pages_received`, sum of `total_pages` (missing keys read as 0). -/
def summarize (rs : List JobRecord) : BatchSummary :=
  ⟨(rs.filter (fun r => r.success)).length,
   (rs.map (fun r => r.pages_received)).sum,
   (rs.map (fun r => r.total_pages)).sum⟩

/-- The three events of the worked example: pages 1, 3, 2 of a 3-page job. -/
def exampleEvents : List Payload :=
  [⟨some 1, some "A", some 3⟩, ⟨some 3, some "C", some 3⟩, ⟨some 2, some "B", some 3⟩]

/-- A status source whose every call raises `StatusError`. -/
def allStatusError : Nat → Except Unit StatusResp := fun _ => .error ()

/-- A status source that always answers status "processing", 7 pages, 4
completed, without ever erroring. -/
def allProcessing : Nat → Except Unit StatusResp :=
  fun _ => .ok ⟨some "processing", 7, 4⟩

/-! ### Lemmas about the page-dict embedding -/

theorem hasKey_iff_mem (m : List (Nat × String)) (k : Nat) :
    hasKey m k = true ↔ k ∈ m.map Prod.fst := by
  simp [hasKey, List.any_eq_true, List.mem_map]

theorem lookupPage_eq_none (m : List (Nat × String)) (k : Nat)
    (h : hasKey m k = false) : lookupPage m k = none := by
  induction m with
  | nil => rfl
  | cons q t ih =>
    rw [hasKey, List.any_cons] at h
    rw [Bool.or_eq_false_iff] at h
    rw [lookupPage, if_neg (of_decide_eq_false h.1)]
    exact ih h.2

theorem lookupD_of_not_hasKey (m : List (Nat × String)) (k : Nat)
    (h : hasKey m k = false) : lookupD m k = "" := by
  rw [lookupD, lookupPage_eq_none m k h]; rfl

theorem empty_append_str (s : String) : "" ++ s = s := by
  cases s; rfl

theorem concatTexts_filter (f : Nat → String) (pr : Nat → Bool) :
    ∀ l : List Nat, (∀ i ∈ l, pr i = false → f i = "") →
      concatTexts ((l.filter pr).map f) = concatTexts (l.map f)
  | [], _ => rfl
  | i :: t, h => by
    have ih := concatTexts_filter f pr t (fun j hj => h j (List.mem_cons_of_mem _ hj))
    cases hp : pr i with
    | true => simp only [List.filter_cons, hp, if_true, List.map_cons, concatTexts, ih]
    | false =>
      simp only [List.filter_cons, hp, Bool.false_eq_true, if_false, List.map_cons,
        concatTexts, ih, h i (List.mem_cons_self _ _) hp]
      exact (empty_append_str _).symm

theorem hasKey_insertPage_self (m : List (Nat × String)) (k : Nat) (v : String) :
    hasKey (insertPage m k v) k = true := by
  rw [insertPage]
  split
  · rename_i h
    rw [hasKey, List.any_eq_true] at h ⊢
    obtain ⟨q, hq, hqk⟩ := h
    refine ⟨(k, v), ?_, by simp⟩
    have hmem := List.mem_map_of_mem (fun q : Nat × String =>
      if q.1 = k then (k, v) else q) hq
    simpa [of_decide_eq_true hqk] using hmem
  · rw [hasKey, List.any_eq_true]
    exact ⟨(k, v), by simp, by simp⟩

theorem keys_insertPage_of_hasKey (m : List (Nat × String)) (k : Nat) (v : String)
    (h : hasKey m k = true) :
    (insertPage m k v).map Prod.fst = m.map Prod.fst := by
  rw [insertPage, if_pos h, List.map_map]
  apply List.map_congr_left
  intro q hq
  by_cases hqk : q.1 = k
  · simp [hqk]
  · simp [hqk]

theorem keys_insertPage_of_not_hasKey (m : List (Nat × String)) (k : Nat) (v : String)
    (h : hasKey m k = false) :
    (insertPage m k v).map Prod.fst = m.map Prod.fst ++ [k] := by
  rw [insertPage, if_neg (by simp [h]), List.map_append]
  rfl

theorem mem_keys_insertPage (m : List (Nat × String)) (k : Nat) (v : String) (j : Nat) :
    j ∈ (insertPage m k v).map Prod.fst ↔ j ∈ m.map Prod.fst ∨ j = k := by
  cases hk : hasKey m k with
  | true =>
    rw [keys_insertPage_of_hasKey m k v hk]
    constructor
    · exact Or.inl
    · rintro (h | rfl)
      · exact h
      · exact (hasKey_iff_mem m j).mp hk
  | false =>
    rw [keys_insertPage_of_not_hasKey m k v hk]
    simp

theorem nodup_keys_insertPage (m : List (Nat × String)) (k : Nat) (v : String)
    (hn : (m.map Prod.fst).Nodup) :
    ((insertPage m k v).map Prod.fst).Nodup := by
  cases hk : hasKey m k with
  | true => rw [keys_insertPage_of_hasKey m k v hk]; exact hn
  | false =>
    rw [keys_insertPage_of_not_hasKey m k v hk]
    have hkm : k ∉ m.map Prod.fst := fun hmem => by
      rw [(hasKey_iff_mem m k).mpr hmem] at hk
      exact Bool.true_eq_false.mp hk
    simp [List.nodup_append, hn, hkm]

theorem hasKey_insertPage_of_hasKey (m : List (Nat × String)) (k j : Nat) (v : String)
    (h : hasKey m j = true) : hasKey (insertPage m k v) j = true := by
  rw [hasKey_iff_mem] at h ⊢
  exact (mem_keys_insertPage m k v j).mpr (Or.inl h)

theorem insertPage_entry_eq (m : List (Nat × String)) (k : Nat) (v : String) :
    ∀ q ∈ insertPage m k v, q.1 = k → q = (k, v) := by
  intro q hq hqk
  rw [insertPage] at hq
  split at hq
  · rw [List.mem_map] at hq
    obtain ⟨q0, hq0, hval⟩ := hq
    by_cases h0 : q0.1 = k
    · rw [if_pos h0] at hval; exact hval.symm
    · rw [if_neg h0] at hval
      subst hval
      exact absurd hqk h0
  · rename_i h
    rw [List.mem_append] at hq
    cases hq with
    | inl hq' =>
      exact absurd ((hasKey_iff_mem m k).mpr
        (hqk ▸ List.mem_map_of_mem Prod.fst hq')) h
    | inr hq' => simpa using hq'

theorem insertPage_idem (m : List (Nat × String)) (k : Nat) (v : String) :
    insertPage (insertPage m k v) k v = insertPage m k v := by
  conv_lhs => rw [insertPage]
  rw [if_pos (hasKey_insertPage_self m k v)]
  conv_rhs => rw [← List.map_id (insertPage m k v)]
  apply List.map_congr_left
  intro q hq
  by_cases hqk : q.1 = k
  · rw [if_pos hqk, insertPage_entry_eq m k v q hq hqk]; rfl
  · rw [if_neg hqk]; rfl

theorem le_maxKey_of_mem (m : List (Nat × String)) (j : Nat)
    (h : j ∈ m.map Prod.fst) : j ≤ maxKey m := by
  rw [maxKey]
  induction m with
  | nil => simp at h
  | cons q t ih =>
    rw [List.map_cons] at h
    rcases List.mem_cons.mp h with h1 | h1
    · subst h1; exact le_max_left _ _
    · exact le_trans (ih h1) (le_max_right _ _)

theorem maxKey_le_of_keys_le (m : List (Nat × String)) (T : Nat)
    (h : ∀ j ∈ m.map Prod.fst, j ≤ T) : maxKey m ≤ T := by
  rw [maxKey]
  induction m with
  | nil => exact Nat.zero_le T
  | cons q t ih =>
    refine max_le (h q.1 (by simp)) (ih ?_)
    intro j hj
    exact h j (List.mem_cons_of_mem _ hj)

theorem length_of_all_present (m : List (Nat × String)) (T : Nat)
    (hall : ∀ i, 1 ≤ i → i ≤ T → hasKey m i = true) : T ≤ m.length := by
  have hsub : List.range' 1 T ⊆ m.map Prod.fst := by
    intro i hi
    obtain ⟨h1, h2⟩ := List.mem_range'_1.mp hi
    exact (hasKey_iff_mem m i).mp (hall i h1 (by omega))
  have hnd : (List.range' 1 T).Nodup := List.nodup_range' _ _
  have := (hnd.subperm hsub).length_le
  rw [List.length_range', List.length_map] at this
  exact this

theorem maxKey_cons (q : Nat × String) (l : List (Nat × String)) :
    maxKey (q :: l) = max q.1 (maxKey l) := rfl

theorem maxKey_dropKey0 (m : List (Nat × String)) :
    maxKey (dropKey0 m) = maxKey m := by
  induction m with
  | nil => rfl
  | cons q t ih =>
    by_cases h0 : q.1 = 0
    · rw [dropKey0, List.filter_cons, if_neg (by simp [h0])]
      rw [dropKey0] at ih
      rw [ih, maxKey_cons, h0, Nat.zero_max]
    · rw [dropKey0, List.filter_cons, if_pos (by simp [h0])]
      rw [dropKey0] at ih
      rw [maxKey_cons, maxKey_cons, ih]

theorem lookupPage_dropKey0 (m : List (Nat × String)) (i : Nat) (hi : i ≠ 0) :
    lookupPage (dropKey0 m) i = lookupPage m i := by
  induction m with
  | nil => rfl
  | cons q t ih =>
    by_cases h0 : q.1 = 0
    · rw [dropKey0, List.filter_cons, if_neg (by simp [h0])]
      rw [dropKey0] at ih
      rw [ih, lookupPage, if_neg (by omega)]
    · rw [dropKey0, List.filter_cons, if_pos (by simp [h0])]
      rw [dropKey0] at ih
      rw [lookupPage, lookupPage, ih]

theorem materializeAll_dropKey0 (m : List (Nat × String)) :
    materializeAll (dropKey0 m) = materializeAll m := by
  rw [materializeAll, materializeAll, maxKey_dropKey0]
  congr 1
  apply List.map_congr_left
  intro i hi
  obtain ⟨h1, _⟩ := List.mem_range'_1.mp hi
  rw [lookupD, lookupD, lookupPage_dropKey0 m i (by omega)]

theorem StreamState.ext' (a b : StreamState) (h1 : a.content = b.content)
    (h2 : a.expected_total_pages = b.expected_total_pages)
    (h3 : a.fileContent = b.fileContent) : a = b := by
  cases a; cases b
  cases h1; cases h2; cases h3
  rfl

theorem runStream_cons (s : StreamState) (p : Payload) (ps : List Payload) :
    runStream s (p :: ps) =
      if isComplete (stepEvent s p).expected_total_pages (stepEvent s p).content
      then (stepEvent s p, true) else runStream (stepEvent s p) ps := rfl

/-- The workhorse behind the ordered-reconstruction claim: with every event
of a stream reporting the same positive total `T` and carrying an index in
`[1, T]`, and with every not-yet-stored index of `[1, T]` still to come, the
event loop exits through the completion break, with `expected_total_pages`
equal to `T`, every stored key in `[1, T]`, the completion test true, and the
output file holding the materialization of the final mapping. -/
theorem runStream_complete (T : Nat) (hT : 0 < T) (es : List Payload) :
    ∀ s : StreamState,
      (s.expected_total_pages = T ∨ (s.expected_total_pages = 0 ∧ s.content = [])) →
      (∀ k, hasKey s.content k = true → 1 ≤ k ∧ k ≤ T) →
      (∀ p ∈ es, p.pdf_selected_len.getD 0 = T ∧
        1 ≤ p.page_idx.getD 0 ∧ p.page_idx.getD 0 ≤ T) →
      (∀ i, 1 ≤ i → i ≤ T →
        hasKey s.content i = true ∨ ∃ p ∈ es, p.page_idx.getD 0 = i) →
      isComplete s.expected_total_pages s.content = false →
      (runStream s es).2 = true ∧
      (runStream s es).1.expected_total_pages = T ∧
      (∀ k, hasKey (runStream s es).1.content k = true → 1 ≤ k ∧ k ≤ T) ∧
      isComplete T (runStream s es).1.content = true ∧
      (runStream s es).1.fileContent = materializeAll (runStream s es).1.content := by
  induction es with
  | nil =>
    intro s hexp hkeys _ hcov hfalse
    exfalso
    have hall : ∀ i, 1 ≤ i → i ≤ T → hasKey s.content i = true := by
      intro i h1 h2
      rcases hcov i h1 h2 with hk | ⟨p, hp, _⟩
      · exact hk
      · exact absurd hp (List.not_mem_nil p)
    rcases hexp with hE | ⟨hE0, hEc⟩
    · have hlen := length_of_all_present s.content T hall
      have hallb : (List.range' 1 T).all (fun i => hasKey s.content i) = true := by
        rw [List.all_eq_true]
        intro i hi
        obtain ⟨h1, h2⟩ := List.mem_range'_1.mp hi
        exact hall i h1 (by omega)
      have : isComplete s.expected_total_pages s.content = true := by
        rw [hE, isComplete]
        simp [hT, hlen, hallb]
      rw [this] at hfalse
      exact Bool.true_eq_false.mp hfalse
    · have h1 := hall 1 (le_refl 1) hT
      rw [hEc] at h1
      exact absurd h1 (by decide)
  | cons p ps ih =>
    intro s hexp hkeys hev hcov hfalse
    obtain ⟨hTot, hIdx1, hIdx2⟩ := hev p (List.mem_cons_self p ps)
    have f1 : (stepEvent s p).expected_total_pages = T := by
      simp only [stepEvent, hTot]
      rcases hexp with hE | ⟨hE, _⟩
      · rw [hE]; simp
      · rw [hE]
        have hne : (0 : Nat) ≠ T := by omega
        simp [hT, hne]
    have f2 : (stepEvent s p).content =
        insertPage s.content (p.page_idx.getD 0) (p.text.getD "") := rfl
    have f3 : ∀ k, hasKey (stepEvent s p).content k = true → 1 ≤ k ∧ k ≤ T := by
      intro k hk
      rw [f2, hasKey_iff_mem, mem_keys_insertPage] at hk
      rcases hk with hk | rfl
      · exact hkeys k ((hasKey_iff_mem s.content k).mpr hk)
      · exact ⟨hIdx1, hIdx2⟩
    have f4 : (stepEvent s p).fileContent = materializeAll (stepEvent s p).content := rfl
    cases hc : isComplete (stepEvent s p).expected_total_pages (stepEvent s p).content with
    | true =>
      have hrun : runStream s (p :: ps) = (stepEvent s p, true) := by
        rw [runStream_cons, if_pos hc]
      rw [hrun]
      refine ⟨rfl, f1, f3, ?_, f4⟩
      rw [← f1]; exact hc
    | false =>
      have hrun : runStream s (p :: ps) = runStream (stepEvent s p) ps := by
        rw [runStream_cons, if_neg (by rw [hc]; exact Bool.false_ne_true)]
      rw [hrun]
      refine ih (stepEvent s p) (Or.inl f1) f3
        (fun q hq => hev q (List.mem_cons_of_mem p hq)) ?_ hc
      intro i h1 h2
      rcases hcov i h1 h2 with hk | ⟨q, hq, hqi⟩
      · left
        rw [f2]
        exact hasKey_insertPage_of_hasKey s.content (p.page_idx.getD 0) i (p.text.getD "") hk
      · rcases List.mem_cons.mp hq with rfl | hq'
        · left
          rw [f2, ← hqi]
          exact hasKey_insertPage_self s.content (q.page_idx.getD 0) (q.text.getD "")
        · exact Or.inr ⟨q, hq', hqi⟩

/-! ### The claims -/

/-- Claim C1: for every sequence of well-formed page events (all reporting
the same positive total `T`, all indices in `[1, T]`) in which every index of
`[1, T]` is eventually delivered, the reconstruction loop detects completion,
records `expected_total_pages = T`, and the final document written to the
output file is the concatenation of the stored texts for indices `1..T` in
increasing index order. -/
theorem streaming_reconstruction_ordered (T : Nat) (hT : 0 < T) (es : List Payload)
    (hev : ∀ p ∈ es, p.pdf_selected_len.getD 0 = T ∧
      1 ≤ p.page_idx.getD 0 ∧ p.page_idx.getD 0 ≤ T)
    (hcov : ∀ i, 1 ≤ i → i ≤ T → ∃ p ∈ es, p.page_idx.getD 0 = i) :
    (runStream initState es).2 = true ∧
    (runStream initState es).1.expected_total_pages = T ∧
    (runStream initState es).1.fileContent =
      concatTexts ((List.range' 1 T).map
        (fun i => lookupD (runStream initState es).1.content i)) := by
  have h := runStream_complete T hT es initState (Or.inr ⟨rfl, rfl⟩)
    (fun k hk => by simp [initState, hasKey] at hk)
    hev (fun i h1 h2 => Or.inr (hcov i h1 h2)) rfl
  obtain ⟨hdone, hexpT, hkeys, hcomp, hfile⟩ := h
  refine ⟨hdone, hexpT, ?_⟩
  have hmax_le : maxKey (runStream initState es).1.content ≤ T :=
    maxKey_le_of_keys_le _ T (fun j hj =>
      (hkeys j ((hasKey_iff_mem _ j).mpr hj)).2)
  have hTkey : hasKey (runStream initState es).1.content T = true := by
    rw [isComplete] at hcomp
    have h3 : (List.range' 1 T).all
        (fun i => hasKey (runStream initState es).1.content i) = true := by
      cases h' : (List.range' 1 T).all
          (fun i => hasKey (runStream initState es).1.content i) with
      | true => rfl
      | false => rw [h'] at hcomp; simp at hcomp
    have := List.all_eq_true.mp h3 T (List.mem_range'_1.mpr ⟨hT, by omega⟩)
    exact this
  have hmax_ge : T ≤ maxKey (runStream initState es).1.content :=
    le_maxKey_of_mem _ T ((hasKey_iff_mem _ T).mp hTkey)
  rw [hfile, materializeAll, le_antisymm hmax_le hmax_ge]

/-- Witness for C1: the worked example — pages 1, 3, 2 of a 3-page job
delivered in that order complete after the third event with document "ABC";
after only the first two events the loop has not completed. -/
theorem streaming_reconstruction_ordered_witness :
    (runStream initState exampleEvents).2 = true ∧
    (runStream initState exampleEvents).1.fileContent = "ABC" ∧
    (runStream initState (exampleEvents.take 2)).2 = false := by
  have h := streaming_reconstruction_ordered 3 (by decide) exampleEvents
    (by decide)
    (by intro i h1 h2; interval_cases i
        · exact ⟨⟨some 1, some "A", some 3⟩, by decide⟩
        · exact ⟨⟨some 2, some "B", some 3⟩, by decide⟩
        · exact ⟨⟨some 3, some "C", some 3⟩, by decide⟩)
  exact ⟨h.1, h.2.2.trans (by decide), by decide⟩

/-- Claim C2 counterexample: `expected_total_pages` can decrease.  An event
reporting total 5 followed by an event reporting total 3 drops the recorded
total from 5 to 3, so the value is not monotonically non-decreasing. -/
theorem expected_total_can_decrease :
    (stepEvent (stepEvent initState ⟨some 1, some "A", some 5⟩)
        ⟨some 2, some "B", some 3⟩).expected_total_pages <
      (stepEvent initState ⟨some 1, some "A", some 5⟩).expected_total_pages := by
  decide

/-- Claim C2 (amended): `expected_total_pages` is overwritten by any nonzero
reported total that differs from the current value; it does not decrease
across an event provided that event reports either zero or a total at least
the currently recorded value. -/
theorem expected_total_monotone_of_no_smaller_report (s : StreamState) (p : Payload)
    (h : p.pdf_selected_len.getD 0 = 0 ∨
      s.expected_total_pages ≤ p.pdf_selected_len.getD 0) :
    s.expected_total_pages ≤ (stepEvent s p).expected_total_pages := by
  simp only [stepEvent]
  split
  · rename_i hcond
    rcases h with h0 | hle
    · rw [h0] at hcond
      exact absurd hcond.1 (by omega)
    · exact hle
  · exact le_refl _

/-- Witness for the amended C2 at a concrete event reporting total 5 from the
initial state. -/
theorem expected_total_monotone_witness :
    initState.expected_total_pages ≤
      (stepEvent initState ⟨some 1, some "A", some 5⟩).expected_total_pages :=
  expected_total_monotone_of_no_smaller_report initState ⟨some 1, some "A", some 5⟩
    (Or.inr (by decide))

/-- Claim C3 counterexample: after the single event (idx 1, total 2, "A")
followed by a clean stream end, `convert_with_streaming` returns the partial
streamed result — the fallback is not invoked, although the loop did not
complete. -/
theorem stream_end_no_fallback_counterexample :
    convert_with_streaming (some "pdf-id") [⟨some 1, some "A", some 2⟩] .closed =
      .streamed (⟨[(1, "A")], 2, "A"⟩, 1, 2) ∧
    convert_with_streaming (some "pdf-id") [⟨some 1, some "A", some 2⟩] .closed ≠
      .fellBack ∧
    (runStream initState [⟨some 1, some "A", some 2⟩]).2 = false :=
  ⟨rfl, by decide, rfl⟩

/-- Claim C3 (amended): when the stream ends cleanly before completion, the
engine reports the partial count (N pages received out of the last known
total) and `convert_with_streaming` returns that result to the caller
unchanged; the fallback is invoked only when the streaming step raises
(for instance on an HTTP status error), not on a clean stream end. -/
theorem stream_end_reports_partial (pid : String) (events : List Payload)
    (s : StreamState) (h : runStream initState events = (s, false)) :
    handleStreaming events .closed = .ok (s, s.content.length, s.expected_total_pages) ∧
    convert_with_streaming (some pid) events .closed =
      .streamed (s, s.content.length, s.expected_total_pages) ∧
    convert_with_streaming (some pid) events .httpStatusError = .fellBack := by
  have h1 : handleStreaming events .closed =
      .ok (s, s.content.length, s.expected_total_pages) := by
    simp only [handleStreaming, h]
    rw [if_neg Bool.false_ne_true]
  have h2 : handleStreaming events .httpStatusError = .error () := by
    simp only [handleStreaming, h]
    rw [if_neg Bool.false_ne_true]
  refine ⟨h1, ?_, ?_⟩
  · simp only [convert_with_streaming, h1]
  · simp only [convert_with_streaming, h2]

/-- Witness for the amended C3 at the single-event example: 1 of 2 pages
received, not complete, result returned as a streamed partial. -/
theorem stream_end_reports_partial_witness :
    handleStreaming [⟨some 1, some "A", some 2⟩] .closed =
      .ok (⟨[(1, "A")], 2, "A"⟩, 1, 2) ∧
    convert_with_streaming (some "pdf-id") [⟨some 1, some "A", some 2⟩] .closed =
      .streamed (⟨[(1, "A")], 2, "A"⟩, 1, 2) ∧
    convert_with_streaming (some "pdf-id") [⟨some 1, some "A", some 2⟩]
      .httpStatusError = .fellBack :=
  stream_end_reports_partial "pdf-id" [⟨some 1, some "A", some 2⟩]
    ⟨[(1, "A")], 2, "A"⟩ (by decide)

/-- Claim C4 counterexample: when every `get_pdf_status` call raises a
`StatusError`, `fallback_download` fails outright (the "both methods failed"
error) and never reaches the download, whereas error-free polls that never
resolve do reach the download through the 300-time-unit ceiling. -/
theorem status_error_polling_counterexample :
    fallback_download allStatusError (.ok "TEXT") = .error () ∧
    fallback_download allProcessing (.ok "TEXT") = .ok (4, 7, some "TEXT") :=
  ⟨rfl, rfl⟩

/-- Claim C4 (amended): a `StatusError` raised by `get_pdf_status` during the
fallback is not retried: it propagates to the outer handler at once, so a
`StatusError`-only sequence of poll attempts makes the fallback fail
("Failed to convert using both methods") for every behaviour of the final
download, instead of proceeding to the download at the ceiling. -/
theorem status_error_fatal_in_fallback (polls : Nat → Except Unit StatusResp)
    (download : Except Unit String) (h : ∀ j, polls j = .error ()) :
    fallback_download polls download = .error () := by
  simp only [fallback_download, h 0]

/-- Witness for the amended C4 at the all-`StatusError` poll source. -/
theorem status_error_fatal_in_fallback_witness :
    fallback_download allStatusError (.error ()) = .error () :=
  status_error_fatal_in_fallback allStatusError (.error ()) (fun _ => rfl)

/-- Claim C5: a read timeout after at least one stored page yields the
non-fatal partial result whose page count is the size of the page mapping;
with zero stored pages the timeout is re-raised. -/
theorem read_timeout_salvage (events : List Payload) (s : StreamState)
    (h : runStream initState events = (s, false)) :
    (0 < s.content.length →
      handleStreaming events .readTimeout =
        .ok (s, s.content.length, s.expected_total_pages)) ∧
    (s.content.length = 0 → handleStreaming events .readTimeout = .error ()) := by
  constructor
  · intro hp
    simp only [handleStreaming, h]
    rw [if_pos hp, if_neg Bool.false_ne_true]
  · intro h0
    simp only [handleStreaming, h]
    have hnlt : ¬ 0 < s.content.length := by omega
    rw [if_neg hnlt, if_neg Bool.false_ne_true]

/-- Witness for C5: a timeout after the single event (idx 1, total 0, "X")
salvages a 1-page partial result. -/
theorem read_timeout_salvage_witness :
    handleStreaming [⟨some 1, some "X", some 0⟩] .readTimeout =
      .ok (⟨[(1, "X")], 0, "X"⟩, 1, 0) :=
  (read_timeout_salvage [⟨some 1, some "X", some 0⟩] ⟨[(1, "X")], 0, "X"⟩
    (by decide)).1 (by decide)

/-- Claim C6: processing a duplicate of the event just processed (same index,
same text, same reported total) changes nothing: the whole state — page
mapping, `expected_total_pages`, and the document written to the output
file — is unchanged, and so is the completion decision. -/
theorem duplicate_event_idempotent (s : StreamState) (p : Payload) :
    stepEvent (stepEvent s p) p = stepEvent s p ∧
    isComplete (stepEvent (stepEvent s p) p).expected_total_pages
        (stepEvent (stepEvent s p) p).content =
      isComplete (stepEvent s p).expected_total_pages (stepEvent s p).content := by
  have hE : (stepEvent (stepEvent s p) p).expected_total_pages =
      (stepEvent s p).expected_total_pages := by
    simp only [stepEvent]
    by_cases ht : 0 < p.pdf_selected_len.getD 0
    · by_cases he : s.expected_total_pages = p.pdf_selected_len.getD 0
      · simp [ht, he]
      · simp [ht, he]
    · simp [ht]
  have hC : (stepEvent (stepEvent s p) p).content = (stepEvent s p).content := by
    simp only [stepEvent]
    exact insertPage_idem _ _ _
  have hF : (stepEvent (stepEvent s p) p).fileContent =
      (stepEvent s p).fileContent := by
    simp only [stepEvent]
    rw [insertPage_idem]
  have h := StreamState.ext' _ _ hC hE hF
  exact ⟨h, by rw [h]⟩

/-- Claim C7: with the skip flag the final check returns success without
looking at the status; otherwise "completed", "split" and "processing" map to
success and every other status maps to failure; in every case the previously
written output file is left untouched. -/
theorem final_status_mapping (st : Option String) (f : String)
    (h : st ≠ some "completed" ∧ st ≠ some "split" ∧ st ≠ some "processing") :
    (∀ q : Except Unit (Option String), check_final_status true q f = (true, f)) ∧
    check_final_status false (.ok (some "completed")) f = (true, f) ∧
    check_final_status false (.ok (some "split")) f = (true, f) ∧
    check_final_status false (.ok (some "processing")) f = (true, f) ∧
    check_final_status false (.ok st) f = (false, f) := by
  refine ⟨fun q => rfl, rfl, rfl, rfl, ?_⟩
  simp [check_final_status, h.1, h.2.1, h.2.2]

/-- Witness for C7 at status "error". -/
theorem final_status_mapping_witness :
    check_final_status false (.ok (some "error")) "out.mmd" = (false, "out.mmd") :=
  (final_status_mapping (some "error") "out.mmd" (by decide)).2.2.2.2

/-- Claim C8: each job of a batch is recorded independently — the records of
a two-job batch are exactly the records each job produces on its own — and
for the worked example (one job succeeding with 3/3 pages, one failing at
submission) the summary counts 1 success and 3 pages, with the failed job's
error detail preserved in its own record. -/
theorem batch_isolation (j1 j2 : JobSpec) :
    process_all [j1, j2] = [runJob j1, runJob j2] ∧
    process_all [⟨"a.pdf", "out/a.mmd", .ok ("id-a", 3, 3, true)⟩,
        ⟨"b.pdf", "out/b.mmd", .error "submission failed"⟩] =
      [⟨"a.pdf", "out/a.mmd", some "id-a", 3, 3, true, none⟩,
       ⟨"b.pdf", "out/b.mmd", none, 0, 0, false, some "submission failed"⟩] ∧
    summarize (process_all [⟨"a.pdf", "out/a.mmd", .ok ("id-a", 3, 3, true)⟩,
        ⟨"b.pdf", "out/b.mmd", .error "submission failed"⟩]) = ⟨1, 3, 3⟩ :=
  ⟨rfl, rfl, rfl⟩

/-- Claim C9: an event whose payload lacks `page_idx` is stored under index
0; the stored key 0 is counted in the returned pages-received value, yet the
materialized document never depends on the entry at index 0, because
materialization ranges over indices from 1 upward only — so the concrete
no-index event yields a 1-page count with an empty output file. -/
theorem missing_page_idx_stored_at_zero (s : StreamState) (p : Payload)
    (h : p.page_idx = none) :
    (stepEvent s p).content = insertPage s.content 0 (p.text.getD "") ∧
    hasKey (stepEvent s p).content 0 = true ∧
    (∀ m : List (Nat × String), materializeAll (dropKey0 m) = materializeAll m) ∧
    handleStreaming [⟨none, some "X", none⟩] .closed =
      .ok (⟨[(0, "X")], 0, ""⟩, 1, 0) := by
  refine ⟨?_, ?_, materializeAll_dropKey0, rfl⟩
  · simp [stepEvent, h]
  · simp only [stepEvent, h]
    exact hasKey_insertPage_self _ _ _

/-- Witness for C9 at the concrete no-index event processed from the initial
state. -/
theorem missing_page_idx_stored_at_zero_witness :
    hasKey (stepEvent initState ⟨none, some "X", none⟩).content 0 = true :=
  (missing_page_idx_stored_at_zero initState ⟨none, some "X", none⟩ rfl).2.1

/-- Claim C10: for every page mapping, the per-event materialization (every
index from 1 to the maximum stored key, gaps as empty placeholders) and the
connection-reset salvage materialization (present indices only, in
increasing order) produce the same string, because the gap placeholder is
the empty string. -/
theorem materialize_paths_agree (m : List (Nat × String)) :
    materializePresent m = materializeAll m := by
  rw [materializePresent, materializeAll]
  exact concatTexts_filter _ _ _ (fun i _ hi => lookupD_of_not_hasKey m i hi)
